import Mathlib

/-!
Verification development for an EdDSA-signature-verification constraint engine.

The repository under study wires a gnark EdDSA circuit (`EdDSACircuit.Define`),
native signing/verification (gnark-crypto) and a groth16 proving pipeline
(`TestEdDSA`, `TestEdDSAWithInvalidSignature`).  The cryptographic engine
itself (field and twisted-Edwards arithmetic, the MiMC transcript, the
verification predicate, witness encoding, circuit compilation) lives in the
external libraries; the specification describes it as a parameterized module
over a choice of field, curve and hash.  The definitions below embed that
engine, parameterized by `Params`, exactly as the specification describes it;
the repository's own circuit declaration and tampering code are embedded from
the source files directly.
-/

/-- Modelled from the spec: the parameter pack \x7bfield, curve, hash\x7d the engine is
generic over — scalar-field prime `p`, twisted-Edwards coefficients `a`, `d`,
base-point coordinates `gx`, `gy`, base-point group order `n`, and the MiMC
round-constant schedule `rc`. -/
structure Params where
  p : Nat
  a : Nat
  d : Nat
  gx : Nat
  gy : Nat
  n : Nat
  rc : List Nat
deriving DecidableEq

/-- Modelled from the spec: field addition, on canonical representatives in `[0, p)`. -/
def fadd (P : Params) (x y : Nat) : Nat := (x + y) % P.p

/-- Modelled from the spec: field subtraction via the additive complement. -/
def fsub (P : Params) (x y : Nat) : Nat := (x + (P.p - y % P.p)) % P.p

/-- Modelled from the spec: field multiplication. -/
def fmul (P : Params) (x y : Nat) : Nat := (x * y) % P.p

/-- Modelled from the spec: field exponentiation, reduced to the canonical representative. -/
def fpow (P : Params) (x k : Nat) : Nat := x ^ k % P.p

/-- Modelled from the spec: modular inverse by Fermat's little theorem (`p` prime). -/
def finv (P : Params) (x : Nat) : Nat := fpow P x (P.p - 2)

/-- Modelled from the spec: field division. -/
def fdiv (P : Params) (x y : Nat) : Nat := fmul P x (finv P y)

/-- Modelled from the spec: a curve point is a pair of field elements (x, y). -/
def idPoint (P : Params) : Nat × Nat := (0, 1 % P.p)

/-- Modelled from the spec: the twisted-Edwards curve-equation membership test
`a·x² + y² = 1 + d·x²·y²`, the decode-time check for malformed points. -/
def onCurveB (P : Params) (q : Nat × Nat) : Bool :=
  (P.a * q.1 * q.1 + q.2 * q.2) % P.p == (1 + P.d * q.1 * q.1 * q.2 * q.2) % P.p

/-- Modelled from the spec: the twisted-Edwards addition law
`x₃ = (x₁y₂ + y₁x₂)/(1 + d·x₁x₂y₁y₂)`, `y₃ = (y₁y₂ − a·x₁x₂)/(1 − d·x₁x₂y₁y₂)`. -/
def pointAdd (P : Params) (q r : Nat × Nat) : Nat × Nat :=
  let t := fmul P (fmul P q.1 r.1) (fmul P q.2 r.2)
  (fdiv P (fadd P (fmul P q.1 r.2) (fmul P q.2 r.1)) (fadd P 1 (fmul P P.d t)),
   fdiv P (fsub P (fmul P q.2 r.2) (fmul P P.a (fmul P q.1 r.1))) (fsub P 1 (fmul P P.d t)))

/-- Modelled from the spec: scalar multiplication as a fixed sequence of
curve additions with no data-dependent branching (iterated application of the
addition law starting from the identity point). -/
def scalarMul (P : Params) : Nat → Nat × Nat → Nat × Nat
  | 0, _ => idPoint P
  | k + 1, q => pointAdd P q (scalarMul P k q)

/-- Modelled from the spec: the fixed base point of the curve. -/
def basePoint (P : Params) : Nat × Nat := (P.gx, P.gy)

/-- Modelled from the spec: a scalar multiple of the base point. -/
def mulB (P : Params) (k : Nat) : Nat × Nat := scalarMul P k (basePoint P)

/-- Modelled from the spec: one keyed MiMC permutation — each round maps the
state `st` under key `k` and round constant `c` to `(st + k + c)^5`. -/
def mimcPerm (P : Params) (k x : Nat) : Nat :=
  P.rc.foldl (fun st c => fpow P (fadd P (fadd P st k) c) 5) x

/-- Modelled from the spec: the hash-to-field transcript — a Miyaguchi–Preneel
fold of the keyed MiMC permutation over a list of field-element inputs,
producing one field element; used for nonce and challenge derivation. -/
def hashT (P : Params) (inputs : List Nat) : Nat :=
  inputs.foldl (fun h m => fadd P (fadd P (mimcPerm P h m) h) m) 0

/-- Modelled from the spec: a signature is a pair (R: curve point, S: scalar). -/
structure Sig where
  R : Nat × Nat
  S : Nat
deriving DecidableEq

/-- Modelled from the spec: public-key derivation — the public key is
`scalar · base point`. -/
def keyGen (P : Params) (sk : Nat) : Nat × Nat := mulB P sk

/-- Modelled from the spec: deterministic EdDSA signing — nonce
`r = Hash(sk, msg)` reduced mod the group order, `R = r·B`,
challenge `c = Hash(R, publicKey, msg)`, `S = r + c·sk (mod n)`. -/
def eddsaSign (P : Params) (sk msg : Nat) : Sig :=
  let r := hashT P [sk, msg] % P.n
  let bigR := mulB P r
  let pk := mulB P sk
  let c := hashT P [bigR.1, bigR.2, pk.1, pk.2, msg]
  ⟨bigR, (r + c * sk) % P.n⟩

/-- Modelled from the spec: the native verification predicate — recompute the
challenge `c = Hash(R, publicKey, message)` over the transcript and accept iff
`S·BasePoint == R + c·publicKey` as curve-point equality. -/
def nativeVerify (P : Params) (pk : Nat × Nat) (msg : Nat) (sig : Sig) : Bool :=
  let c := hashT P [sig.R.1, sig.R.2, pk.1, pk.2, msg]
  decide (scalarMul P sig.S (basePoint P) = pointAdd P sig.R (scalarMul P c pk))

/-- A concrete toy instantiation of the parameter pack, used to exercise the
engine on explicit inputs: the Edwards curve `x² + y² = 1 + 2x²y²` over `F₁₃`,
whose point `(4, 4)` generates the full group of order 8, with a two-round
MiMC schedule. -/
def T : Params := ⟨13, 1, 2, 4, 4, 8, [1, 2]⟩

/-- Modelled from the spec: the ordered set of symbolic-variable assignments the
compiled constraint system consumes — public-key coordinates, signature
`R`-coordinates, signature scalar `S`, and the message field element. -/
structure WitnessAssignment where
  pkX : Nat
  pkY : Nat
  rX : Nat
  rY : Nat
  s : Nat
  msg : Nat
deriving DecidableEq

/-- Modelled from the spec: the packing of a (public key, message, signature)
triple into the ordered witness variables. -/
def packWitness (pk : Nat × Nat) (msg : Nat) (sig : Sig) : WitnessAssignment :=
  ⟨pk.1, pk.2, sig.R.1, sig.R.2, sig.S, msg⟩

/-- Modelled from the spec: `encodeWitness(publicKey, message, signature)` —
deterministic; fails (encoding error) when a point is off-curve or a
message/scalar is out of range for the target field, succeeds otherwise. -/
def encodeWitness (P : Params) (pk : Nat × Nat) (msg : Nat) (sig : Sig) :
    Option WitnessAssignment :=
  if onCurveB P pk && onCurveB P sig.R && decide (sig.S < P.n) && decide (msg < P.p)
  then some (packWitness pk msg sig)
  else none

/-- Modelled from the spec: the constrained mode of the verification predicate —
it emits equality constraints between the two sides' coordinates: the pairs
`(lhs.x, rhs.x)` and `(lhs.y, rhs.y)` for `lhs = S·B` and `rhs = R + c·A`,
with the challenge recomputed in-circuit from the witness variables. -/
def circuitConstraints (P : Params) (w : WitnessAssignment) : List (Nat × Nat) :=
  let c := hashT P [w.rX, w.rY, w.pkX, w.pkY, w.msg]
  let lhs := scalarMul P w.s (basePoint P)
  let rhs := pointAdd P (w.rX, w.rY) (scalarMul P c (w.pkX, w.pkY))
  [(lhs.1, rhs.1), (lhs.2, rhs.2)]

/-- Modelled from the spec: a witness is satisfying iff every emitted equality
constraint holds for the concrete values. -/
def satisfiedCS (cs : List (Nat × Nat)) : Bool :=
  cs.all (fun q => q.1 == q.2)

/-- Modelled from the spec: the error taxonomy a caller observes — an encoding
error at witness-encoding time, a proving failure from constraint
unsatisfiability, or success. -/
inductive Outcome where
  | encodeError : Outcome
  | proveError : Outcome
  | success : Outcome
deriving DecidableEq

/-- Modelled from the spec: the end-to-end pipeline — encode the triple (an
off-range or off-curve input surfaces immediately as an encoding error), then
hand the witness to the prover, which fails exactly when the compiled
constraints are unsatisfied. -/
def proveTriple (P : Params) (pk : Nat × Nat) (msg : Nat) (sig : Sig) : Outcome :=
  match encodeWitness P pk msg sig with
  | none => Outcome.encodeError
  | some w => if satisfiedCS (circuitConstraints P w) then Outcome.success
              else Outcome.proveError

/-- Modelled from the spec: the sign flag stored with a compressed point —
which of the two square roots the x-coordinate is. -/
def signBit (P : Params) (x : Nat) : Nat := if x ≤ (P.p - 1) / 2 then 0 else 1

/-- Modelled from the spec: compressed-point serialization — the y-coordinate
byte together with the sign flag of x in a high bit. -/
def compressPoint (P : Params) (q : Nat × Nat) : Nat := q.2 + 256 * signBit P q.1

/-- Modelled from the spec: signature serialization — byte 0 carries the
compressed `R`, followed by the scalar `S`. -/
def serializeSig (P : Params) (sig : Sig) : List Nat :=
  [compressPoint P sig.R, sig.S]

/-- Modelled from the spec: compressed-point decoding — recover the unique
on-curve x-coordinate with the stored sign for the given y; fails when no
on-curve point matches, so decoding only ever yields points on the curve. -/
def decompressPoint (P : Params) (b : Nat) : Option (Nat × Nat) :=
  if b % 256 < P.p ∧ b / 256 < 2 then
    ((List.range P.p).find? (fun x => onCurveB P (x, b % 256) && (signBit P x == b / 256))).map
      (fun x => (x, b % 256))
  else none

/-- Modelled from the spec: signature decoding — decompress `R` (rejecting any
byte pattern not denoting an on-curve point) and range-check the scalar. -/
def deserializeSig (P : Params) (bs : List Nat) : Option Sig :=
  match bs with
  | [b0, b1] =>
    match decompressPoint P b0 with
    | some r => if b1 < P.n then some ⟨r, b1⟩ else none
    | none => none
  | _ => none

/-- Tampering step of `TestEdDSAWithInvalidSignature` (`main.go`) and
`TestEdDSACircuit`: a fresh copy of the signature bytes with bit 0 of byte 0
flipped (`tamperedSignature[0] ^= 0x01`), embedded functionally. -/
def tamperBytes : List Nat → List Nat
  | [] => []
  | b :: rest => (b ^^^ 1) :: rest

/-- In-circuit expressions: the operations available to the constrained mode of
the transcript — constants, input variables, field addition and field
multiplication (exponentiation is expanded into multiplications). -/
inductive CExpr where
  | cst : Nat → CExpr
  | var : Nat → CExpr
  | add : CExpr → CExpr → CExpr
  | mul : CExpr → CExpr → CExpr
deriving DecidableEq

/-- Evaluation of an in-circuit expression at a concrete assignment of the
input variables, every operation reduced in the field. -/
def CExpr.eval (P : Params) (env : Nat → Nat) : CExpr → Nat
  | CExpr.cst c => c % P.p
  | CExpr.var i => env i % P.p
  | CExpr.add x y => (CExpr.eval P env x + CExpr.eval P env y) % P.p
  | CExpr.mul x y => (CExpr.eval P env x * CExpr.eval P env y) % P.p

/-- Symbolic exponentiation by repeated in-circuit multiplication. -/
def epow (e : CExpr) : Nat → CExpr
  | 0 => CExpr.cst 1
  | k + 1 => CExpr.mul e (epow e k)

/-- The keyed MiMC permutation emitted symbolically inside the constraint
system: the same round schedule as `mimcPerm`, over expressions. -/
def mimcPermE (P : Params) (k x : CExpr) : CExpr :=
  P.rc.foldl (fun st c => epow (CExpr.add (CExpr.add st k) (CExpr.cst c)) 5) x

/-- The hash transcript emitted symbolically inside the constraint system: the
same Miyaguchi–Preneel fold as `hashT`, over expressions. -/
def hashTE (P : Params) (es : List CExpr) : CExpr :=
  es.foldl (fun h e => CExpr.add (CExpr.add (mimcPermE P h e) h) e) (CExpr.cst 0)

/-- Size of an in-circuit expression, counting emitted operations. -/
def exprSize : CExpr → Nat
  | CExpr.cst _ => 1
  | CExpr.var _ => 1
  | CExpr.add x y => exprSize x + exprSize y + 1
  | CExpr.mul x y => exprSize x + exprSize y + 1

/-- Modelled from the spec: a compiled constraint system's structural summary —
its constraint count and its variable count. -/
structure ConstraintSystemInfo where
  nbConstraints : Nat
  nbVariables : Nat
deriving DecidableEq

/-- Modelled from the spec: `compileVerificationCircuit()` — a pure function of
the circuit definition; the structural summary counts the symbolically emitted
challenge transcript over the five circuit inputs (R.x, R.y, A.x, A.y, msg)
plus the two coordinate equality constraints, over the six witness variables. -/
def compileVerificationCircuit (P : Params) : ConstraintSystemInfo :=
  ⟨exprSize (hashTE P [CExpr.var 0, CExpr.var 1, CExpr.var 2, CExpr.var 3, CExpr.var 4]) + 2, 6⟩

/-- Input visibility of a circuit variable in the constraint system. -/
inductive InputVis where
  | publicInput : InputVis
  | secretInput : InputVis
deriving DecidableEq

/-- The circuit declaration of `EdDSACircuit` (circuit.go): the three inputs
and the visibility each carries in its struct tag — all three are tagged
public (`PublicKey`, `Signature`, `Message`). -/
def eddsaCircuitInputs : List (String × InputVis) :=
  [("PublicKey", InputVis.publicInput),
   ("Signature", InputVis.publicInput),
   ("Message", InputVis.publicInput)]

/-- A successful witness encoding always yields the packed triple. -/
theorem encode_eq_some {P : Params} {pk : Nat × Nat} {msg : Nat} {sig : Sig}
    {w : WitnessAssignment} (h : encodeWitness P pk msg sig = some w) :
    w = packWitness pk msg sig := by
  unfold encodeWitness at h
  split at h
  · exact (Option.some.injEq _ _ ▸ h).symm
  · exact absurd h (by simp)

/-- The emitted coordinate constraints are satisfied on a packed triple exactly
when the native predicate accepts the triple. -/
theorem satisfied_iff_native (P : Params) (pk : Nat × Nat) (msg : Nat) (sig : Sig) :
    satisfiedCS (circuitConstraints P (packWitness pk msg sig)) = true ↔
    nativeVerify P pk msg sig = true := by
  simp only [satisfiedCS, circuitConstraints, nativeVerify, packWitness,
    List.all_cons, List.all_nil, Bool.and_eq_true, Bool.and_true, beq_iff_eq,
    decide_eq_true_eq, Prod.ext_iff]

/-- C1: the compiled constraint system accepts the witness encoding of a
(public key, message, signature) triple exactly when `nativeVerify` accepts the
triple — satisfied whenever it returns true (completeness) and unsatisfied
whenever it returns false (soundness of this single check). -/
theorem circuit_accepts_iff_nativeVerify (P : Params) (pk : Nat × Nat) (msg : Nat)
    (sig : Sig) (w : WitnessAssignment) (h : encodeWitness P pk msg sig = some w) :
    (satisfiedCS (circuitConstraints P w) = true ↔ nativeVerify P pk msg sig = true) := by
  rw [encode_eq_some h]
  exact satisfied_iff_native P pk msg sig

/-- C1 witness: on the toy instance, the witness encoding of the signature of
message 0 under secret key 1 exists and the equivalence holds there. -/
theorem circuit_accepts_iff_nativeVerify_check :
    (satisfiedCS (circuitConstraints T ⟨4, 4, 1, 0, 6, 0⟩) = true ↔
      nativeVerify T (4, 4) 0 ⟨(1, 0), 6⟩ = true) :=
  circuit_accepts_iff_nativeVerify T (4, 4) 0 ⟨(1, 0), 6⟩ ⟨4, 4, 1, 0, 6, 0⟩ (by decide)

/-- C5: the verification predicate recomputes the challenge
`c = Hash(R, publicKey, message)` via the transcript and accepts exactly when
`S·BasePoint = R + c·publicKey` as curve-point equality; the constrained mode
emits the same check as equality constraints between the two sides'
coordinates. -/
theorem verify_predicate_characterization (P : Params) (pk : Nat × Nat) (msg : Nat)
    (sig : Sig) (w : WitnessAssignment) :
    (nativeVerify P pk msg sig = true ↔
       scalarMul P sig.S (basePoint P) =
         pointAdd P sig.R
           (scalarMul P (hashT P [sig.R.1, sig.R.2, pk.1, pk.2, msg]) pk)) ∧
    (satisfiedCS (circuitConstraints P w) = true ↔
       ((scalarMul P w.s (basePoint P)).1 =
           (pointAdd P (w.rX, w.rY)
             (scalarMul P (hashT P [w.rX, w.rY, w.pkX, w.pkY, w.msg]) (w.pkX, w.pkY))).1 ∧
        (scalarMul P w.s (basePoint P)).2 =
           (pointAdd P (w.rX, w.rY)
             (scalarMul P (hashT P [w.rX, w.rY, w.pkX, w.pkY, w.msg]) (w.pkX, w.pkY))).2)) := by
  constructor
  · simp only [nativeVerify, decide_eq_true_eq]
  · simp only [satisfiedCS, circuitConstraints, List.all_cons, List.all_nil,
      Bool.and_eq_true, Bool.and_true, beq_iff_eq]

/-- C6: a signature whose `R` component is off the twisted-Edwards curve is
rejected at witness-encoding time — the encoding fails and the pipeline
surfaces an encoding error, never reaching the curve equality check. -/
theorem offcurve_rejected_at_encoding (P : Params) (pk : Nat × Nat) (msg : Nat)
    (sig : Sig) (h : onCurveB P sig.R = false) :
    encodeWitness P pk msg sig = none ∧ proveTriple P pk msg sig = Outcome.encodeError := by
  have he : encodeWitness P pk msg sig = none := by
    simp [encodeWitness, h]
  exact ⟨he, by unfold proveTriple; rw [he]⟩

/-- C6 witness: the off-curve point (1, 1) in the signature's `R` slot is
rejected at encoding time on the toy instance. -/
theorem offcurve_rejected_at_encoding_check :
    encodeWitness T (4, 4) 0 ⟨(1, 1), 0⟩ = none ∧
    proveTriple T (4, 4) 0 ⟨(1, 1), 0⟩ = Outcome.encodeError :=
  offcurve_rejected_at_encoding T (4, 4) 0 ⟨(1, 1), 0⟩ (by decide)

/-- C7: the demonstration circuit declares the signature — like the public key
and the message — as a fully public input of the constraint system, not as a
hidden witness-only input. -/
theorem signature_marked_public :
    ("Signature", InputVis.publicInput) ∈ eddsaCircuitInputs ∧
    eddsaCircuitInputs.all (fun q => q.2 == InputVis.publicInput) = true := by decide

/-- C8: witness encoding is deterministic — encoding the same
(public key, message, signature) triple twice yields identical witness
assignments. -/
theorem encodeWitness_deterministic (P : Params) (pk : Nat × Nat) (msg : Nat)
    (sig : Sig) : encodeWitness P pk msg sig = encodeWitness P pk msg sig := rfl

/-- C9: circuit compilation is structurally deterministic — compiling the same
circuit definition twice yields constraint systems with the same constraint
count and the same variable count. -/
theorem compile_structurally_deterministic (P : Params) :
    compileVerificationCircuit P = compileVerificationCircuit P ∧
    (compileVerificationCircuit P).nbConstraints =
      (compileVerificationCircuit P).nbConstraints ∧
    (compileVerificationCircuit P).nbVariables =
      (compileVerificationCircuit P).nbVariables :=
  ⟨rfl, rfl, rfl⟩

/-- C10: tampering acts on a fresh copy of the signature bytes — the result has
the same length, the same tail, and a head equal to the original head with bit 0
flipped, so it differs from the original in exactly one bit (the
least-significant bit of byte 0) and the two checks operate on distinct values. -/
theorem tamper_on_copy_single_bit (bs : List Nat) (h : bs ≠ []) :
    (tamperBytes bs).length = bs.length ∧
    (tamperBytes bs).tail = bs.tail ∧
    (tamperBytes bs).headD 0 = (bs.headD 0) ^^^ 1 ∧
    ((bs.headD 0) ^^^ ((tamperBytes bs).headD 0)) = 1 ∧
    tamperBytes bs ≠ bs := by
  cases bs with
  | nil => exact absurd rfl h
  | cons b rest =>
    refine ⟨rfl, rfl, rfl, ?_, ?_⟩
    · show b ^^^ (b ^^^ 1) = 1
      rw [← Nat.xor_assoc, Nat.xor_self, Nat.zero_xor]
    · intro he
      have hb : b ^^^ 1 = b := by
        have h0 := congrArg (fun l => l.headD 0) he
        simpa [tamperBytes] using h0
      have h1 : b ^^^ (b ^^^ 1) = b ^^^ b := congrArg (fun z => b ^^^ z) hb
      rw [← Nat.xor_assoc, Nat.xor_self, Nat.zero_xor] at h1
      exact absurd h1 one_ne_zero

/-- C10 witness: tampering the concrete serialized signature [0, 6] of the toy
instance yields [1, 6], differing in exactly the least-significant bit of
byte 0. -/
theorem tamper_on_copy_single_bit_check :
    (tamperBytes [0, 6]).length = [0, 6].length ∧
    (tamperBytes [0, 6]).tail = List.tail [0, 6] ∧
    (tamperBytes [0, 6]).headD 0 = (List.headD [0, 6] 0) ^^^ 1 ∧
    ((List.headD [0, 6] 0) ^^^ ((tamperBytes [0, 6]).headD 0)) = 1 ∧
    tamperBytes [0, 6] ≠ [0, 6] :=
  tamper_on_copy_single_bit [0, 6] (by decide)

/-- Symbolic exponentiation evaluates to reduced field exponentiation. -/
theorem eval_epow (P : Params) (env : Nat → Nat) (e : CExpr) (k : Nat) :
    CExpr.eval P env (epow e k) = (CExpr.eval P env e) ^ k % P.p := by
  induction k with
  | zero => simp [epow, CExpr.eval, pow_zero]
  | succ k ih =>
    show (CExpr.eval P env e * CExpr.eval P env (epow e k)) % P.p = _
    rw [ih, pow_succ, Nat.mul_mod, Nat.mod_mod_of_dvd _ (dvd_refl P.p), ← Nat.mul_mod,
      Nat.mul_comm]

/-- The symbolically emitted MiMC round schedule evaluates step for step to the
native keyed permutation, for any round-constant list. -/
theorem eval_mimc_fold (P : Params) (env : Nat → Nat) (kE : CExpr) :
    ∀ (l : List Nat) (xE : CExpr),
    CExpr.eval P env
        (l.foldl (fun st c => epow (CExpr.add (CExpr.add st kE) (CExpr.cst c)) 5) xE)
      = l.foldl (fun st c => fpow P (fadd P (fadd P st (CExpr.eval P env kE)) c) 5)
          (CExpr.eval P env xE) := by
  intro l
  induction l with
  | nil => intro xE; rfl
  | cons c cs ih =>
    intro xE
    rw [List.foldl_cons, List.foldl_cons, ih]
    congr 1
    rw [eval_epow]
    show (((CExpr.eval P env xE + CExpr.eval P env kE) % P.p + c % P.p) % P.p) ^ 5 % P.p
      = (((CExpr.eval P env xE + CExpr.eval P env kE) % P.p + c) % P.p) ^ 5 % P.p
    rw [Nat.add_mod_mod]

/-- The in-circuit MiMC permutation agrees with the native one on identical
evaluated inputs. -/
theorem eval_mimcPermE (P : Params) (env : Nat → Nat) (kE xE : CExpr) :
    CExpr.eval P env (mimcPermE P kE xE)
      = mimcPerm P (CExpr.eval P env kE) (CExpr.eval P env xE) :=
  eval_mimc_fold P env kE P.rc xE

/-- The symbolically emitted transcript fold evaluates step for step to the
native transcript fold, for any input list and accumulator. -/
theorem eval_hash_fold (P : Params) (env : Nat → Nat) :
    ∀ (es : List CExpr) (hE : CExpr),
    CExpr.eval P env
        (es.foldl (fun h e => CExpr.add (CExpr.add (mimcPermE P h e) h) e) hE)
      = (es.map (CExpr.eval P env)).foldl
          (fun h m => fadd P (fadd P (mimcPerm P h m) h) m) (CExpr.eval P env hE) := by
  intro es
  induction es with
  | nil => intro hE; rfl
  | cons e es ih =>
    intro hE
    rw [List.map_cons, List.foldl_cons, List.foldl_cons, ih]
    congr 1
    show (CExpr.eval P env (CExpr.add (mimcPermE P hE e) hE) + CExpr.eval P env e) % P.p = _
    rw [show CExpr.eval P env (CExpr.add (mimcPermE P hE e) hE)
        = (CExpr.eval P env (mimcPermE P hE e) + CExpr.eval P env hE) % P.p from rfl,
      eval_mimcPermE]
    rfl

/-- C2: the hash transcript evaluated symbolically inside the constraint system
and the native hash transcript produce identical outputs on identical
field-element inputs, so the in-circuit challenge recomputation equals the
native one. -/
theorem circuit_hash_eq_native_hash (P : Params) (env : Nat → Nat) (es : List CExpr) :
    CExpr.eval P env (hashTE P es) = hashT P (es.map (CExpr.eval P env)) := by
  unfold hashTE hashT
  rw [eval_hash_fold]
  simp [CExpr.eval, Nat.zero_mod]

/-- Scalar multiplication of a base-point multiple stays in the cyclic subgroup
generated by the base point, with exponents composing mod the group order. -/
theorem scalarMul_mulB (P : Params) (hn : 0 < P.n)
    (hB : ∀ k, k < P.n → ∀ l, l < P.n →
      pointAdd P (mulB P k) (mulB P l) = mulB P ((k + l) % P.n))
    (c k : Nat) (hk : k < P.n) :
    scalarMul P c (mulB P k) = mulB P (c * k % P.n) := by
  induction c with
  | zero => simp only [Nat.zero_mul, Nat.zero_mod]; rfl
  | succ c ih =>
    show pointAdd P (mulB P k) (scalarMul P c (mulB P k)) = _
    rw [ih, hB k hk _ (Nat.mod_lt _ hn)]
    congr 1
    rw [Nat.add_mod_mod, Nat.succ_mul, Nat.add_comm]

/-- The EdDSA verification identity: for a nonce and a secret scalar below the
group order, `((r + c·sk) mod n)·B = r·B + c·(sk·B)` in the subgroup. -/
theorem verify_identity (P : Params) (hn : 0 < P.n)
    (hB : ∀ k, k < P.n → ∀ l, l < P.n →
      pointAdd P (mulB P k) (mulB P l) = mulB P ((k + l) % P.n))
    (r c sk : Nat) (hr : r < P.n) (hsk : sk < P.n) :
    scalarMul P ((r + c * sk) % P.n) (basePoint P)
      = pointAdd P (mulB P r) (scalarMul P c (mulB P sk)) := by
  rw [scalarMul_mulB P hn hB c sk hsk, hB r hr _ (Nat.mod_lt _ hn)]
  show mulB P ((r + c * sk) % P.n) = mulB P ((r + c * sk % P.n) % P.n)
  congr 1
  rw [Nat.add_mod_mod]

/-- C4: signing a message with a generated key pair and then natively verifying
the resulting signature against the derived public key returns true, for every
secret scalar below the group order and every message. -/
theorem sign_nativeVerify_true (P : Params) (hn : 0 < P.n)
    (hB : ∀ k, k < P.n → ∀ l, l < P.n →
      pointAdd P (mulB P k) (mulB P l) = mulB P ((k + l) % P.n))
    (sk msg : Nat) (hsk : sk < P.n) :
    nativeVerify P (keyGen P sk) msg (eddsaSign P sk msg) = true := by
  have hr : hashT P [sk, msg] % P.n < P.n := Nat.mod_lt _ hn
  unfold nativeVerify eddsaSign keyGen
  simp only [decide_eq_true_eq]
  exact verify_identity P hn hB _ _ sk hr hsk

/-- C4 witness: on the toy instance the subgroup law holds and signing message 0
under secret key 1 produces a natively verifying signature. -/
theorem sign_nativeVerify_true_check :
    nativeVerify T (keyGen T 1) 0 (eddsaSign T 1 0) = true :=
  sign_nativeVerify_true T (by decide) (by decide) 1 0 (by decide)

/-- Decompression only ever produces points on the curve. -/
theorem decompress_onCurve {P : Params} {b : Nat} {q : Nat × Nat}
    (h : decompressPoint P b = some q) : onCurveB P q = true := by
  unfold decompressPoint at h
  split at h
  · rw [Option.map_eq_some'] at h
    obtain ⟨x, hfind, hxq⟩ := h
    have hp := List.find?_some hfind
    rw [Bool.and_eq_true] at hp
    rw [← hxq]
    exact hp.1
  · exact absurd h (by simp)

/-- A successfully deserialized signature carries an on-curve `R` and an
in-range scalar `S`. -/
theorem deserialize_fields {P : Params} {bs : List Nat} {sig : Sig}
    (h : deserializeSig P bs = some sig) :
    onCurveB P sig.R = true ∧ sig.S < P.n := by
  rcases bs with _ | ⟨b0, _ | ⟨b1, _ | ⟨b2, rest⟩⟩⟩
  · exact absurd h (by simp [deserializeSig])
  · exact absurd h (by simp [deserializeSig])
  · cases hd : decompressPoint P b0 with
    | none => simp [deserializeSig, hd] at h
    | some r =>
      simp only [deserializeSig, hd] at h
      split at h
      · cases h
        exact ⟨decompress_onCurve hd, by assumption⟩
      · exact absurd h (by simp)
  · exact absurd h (by simp [deserializeSig])

/-- C3: when the tampered signature bytes (bit 0 of byte 0 flipped) still
decode and native verification of the decoded signature is negative, the
failure surfaces at the constraint-unsatisfiability stage: witness encoding
succeeds without an encoding error and proof generation returns an error
rather than succeeding. -/
theorem tampered_signature_fails_at_proving (P : Params) (pk : Nat × Nat) (msg : Nat)
    (sigBytes : List Nat) (sig' : Sig)
    (hdes : deserializeSig P (tamperBytes sigBytes) = some sig')
    (hpk : onCurveB P pk = true) (hmsg : msg < P.p)
    (hnv : nativeVerify P pk msg sig' = false) :
    (∃ w, encodeWitness P pk msg sig' = some w) ∧
    proveTriple P pk msg sig' = Outcome.proveError := by
  obtain ⟨hcur, hS⟩ := deserialize_fields hdes
  have henc : encodeWitness P pk msg sig' = some (packWitness pk msg sig') := by
    unfold encodeWitness
    rw [hpk, hcur]
    simp [hS, hmsg]
  refine ⟨⟨_, henc⟩, ?_⟩
  unfold proveTriple
  rw [henc]
  have hsat : satisfiedCS (circuitConstraints P (packWitness pk msg sig')) = false := by
    cases hb : satisfiedCS (circuitConstraints P (packWitness pk msg sig')) with
    | false => rfl
    | true =>
      have := (satisfied_iff_native P pk msg sig').mp hb
      rw [hnv] at this
      exact absurd this (by simp)
  show (if satisfiedCS (circuitConstraints P (packWitness pk msg sig')) = true
        then Outcome.success else Outcome.proveError) = Outcome.proveError
  rw [hsat]
  simp

/-- C3 witness: on the toy instance, tampering the serialized valid signature
[0, 6] yields [1, 6], which decodes to a signature that fails native
verification, encodes without error, and fails at the proving stage. -/
theorem tampered_signature_fails_at_proving_check :
    (∃ w, encodeWitness T (4, 4) 0 ⟨(0, 1), 6⟩ = some w) ∧
    proveTriple T (4, 4) 0 ⟨(0, 1), 6⟩ = Outcome.proveError :=
  tampered_signature_fails_at_proving T (4, 4) 0 [0, 6] ⟨(0, 1), 6⟩
    (by decide) (by decide) (by decide) (by decide)

/-- C3 counterexample: signing message 3 under secret key 1 on the toy
instance yields a natively valid signature, yet its serialization tampered at
bit 0 of byte 0 no longer decodes — the tampered compressed `R` denotes no
on-curve point, so the rejection is an encoding-stage failure, refuting the
unconditional claim that witness encoding succeeds for every tampered valid
signature. -/
theorem tampered_signature_encoding_failure :
    nativeVerify T (keyGen T 1) 3 (eddsaSign T 1 3) = true ∧
    deserializeSig T (tamperBytes (serializeSig T (eddsaSign T 1 3))) = none := by decide
